import Mathlib

/-!
Verification of the two Kaggle training scripts of this repository:

* `Whale_and_Dolphin_Identification/ArcFace_GeM_Pooling_Starter/arc_gempool.py`
  (generalized-mean pooling `GeM`, the ArcFace margin head
  `ArcMarginProduct`, and the checkpointing logic of `run_training`);
* `Ventilator_Pressure/lstm/lstm_train.py` (the straight-line training loop
  that writes the weights file once, after the final epoch).

Tensors are embedded per entry: a spatial feature map of one channel is a
`List ℝ` of its pixel values, a batch of embeddings is `Fin B → Fin n → ℝ`,
and `torch` float arithmetic is real arithmetic (`pow` with a real exponent
is `Real.rpow`, `clamp(min=eps)` is `max · eps`).
-/

/-! ## GeM pooling (`arc_gempool.py`, class `GeM`) -/

/-- `F.avg_pool2d(t, (t.size(-2), t.size(-1)))` applied to one channel: the
kernel covers the whole spatial extent, so the result is the mean of the
(flattened) spatial entries. -/
noncomputable def avg_pool2d (xs : List ℝ) : ℝ := xs.sum / xs.length

/-- State of the `GeM` module: the learned exponent `p` and the clamp floor
`eps` stored by `GeM.__init__`. -/
structure GeM where
  p : ℝ
  eps : ℝ

/-- `GeM()` as constructed in `HappyWhaleModel.__init__`: the defaults
`p = 3` (stored as `nn.Parameter(torch.ones(1) * p)`) and `eps = 1e-6`. -/
noncomputable def GeM.init : GeM := ⟨3, 1e-6⟩

/-- `GeM.gem(x, p, eps) =
F.avg_pool2d(x.clamp(min=eps).pow(p), (x.size(-2), x.size(-1))).pow(1./p)`
on one channel. -/
noncomputable def GeM.gem (x : List ℝ) (p eps : ℝ) : ℝ :=
  (avg_pool2d (x.map fun v => (max v eps) ^ p)) ^ (1 / p)

/-- `GeM.forward(x) = self.gem(x, p=self.p, eps=self.eps)`. -/
noncomputable def GeM.forward (g : GeM) (x : List ℝ) : ℝ := GeM.gem x g.p g.eps

/-- An arithmetic mean, written independently of `avg_pool2d` for the
spec-side formula below. -/
noncomputable def listMean (xs : List ℝ) : ℝ := xs.sum / xs.length

/-- The spec's pooling formula (spec section 4.2), written from its words:
`pool = (mean(clamp(x, min=ε)^p))^(1/p)`. -/
noncomputable def gemSpecFormula (p eps : ℝ) (xs : List ℝ) : ℝ :=
  (listMean (xs.map fun v => (max v eps) ^ p)) ^ (1 / p)

/-- C4: for every input channel `xs`, `GeM.forward` computes
`(mean(clamp(xs, min=ε)^p))^(1/p)` over the spatial entries, with the learned
scalar `p` initialized to `3` and `ε = 1e-6`. -/
theorem C4_gem_forward_formula (xs : List ℝ) :
    GeM.init.forward xs = gemSpecFormula 3 (1e-6) xs ∧
    GeM.init.p = 3 ∧ GeM.init.eps = 1e-6 :=
  ⟨rfl, rfl, rfl⟩

/-- C3 (amended): GeM pooling with exponent `p = 1` agrees with plain average
pooling on every feature map all of whose entries are at least the clamp
floor `eps`; on entries below `eps` the clamp changes the value first. -/
theorem C3_gem_one_eq_avg_pool (eps : ℝ) (xs : List ℝ) (h : ∀ v ∈ xs, eps ≤ v) :
    GeM.gem xs 1 eps = avg_pool2d xs := by
  unfold GeM.gem
  have hmap : xs.map (fun v => (max v eps) ^ (1 : ℝ)) = xs.map id := by
    refine List.map_congr_left ?_
    intro a ha
    rw [max_eq_left (h a ha), Real.rpow_one, id]
  rw [hmap, List.map_id, one_div_one, Real.rpow_one]

/-- Witness for C3: on the map `[1]` (entry above `eps = 1e-6`), GeM with
`p = 1` equals average pooling. -/
theorem C3_gem_one_eq_avg_pool_witness :
    (∀ v ∈ [(1 : ℝ)], (1e-6 : ℝ) ≤ v) ∧
    GeM.gem [(1 : ℝ)] 1 (1e-6) = avg_pool2d [(1 : ℝ)] := by
  have h : ∀ v ∈ [(1 : ℝ)], (1e-6 : ℝ) ≤ v := by
    intro v hv
    rw [List.mem_singleton] at hv
    rw [hv]
    norm_num
  exact ⟨h, C3_gem_one_eq_avg_pool (1e-6) [(1 : ℝ)] h⟩

/-- C3 counterexample: on the one-pixel feature map `[0]`, whose entry lies
below `ε = 1e-6`, GeM pooling with `p = 1` returns `1e-6` (the clamp floor),
while standard average pooling of the map returns `0`. -/
theorem C3_counterexample : GeM.gem [(0 : ℝ)] 1 (1e-6) ≠ avg_pool2d [(0 : ℝ)] := by
  have hmax : max (0 : ℝ) (1e-6) = 1e-6 := max_eq_right (by norm_num)
  have hL : GeM.gem [(0 : ℝ)] 1 (1e-6) = 1e-6 := by
    unfold GeM.gem avg_pool2d
    simp only [List.map_cons, List.map_nil, List.sum_cons, List.sum_nil,
      List.length_cons, List.length_nil, hmax, Real.rpow_one, one_div_one]
    norm_num
  have hR : avg_pool2d [(0 : ℝ)] = 0 := by
    unfold avg_pool2d
    norm_num
  rw [hL, hR]
  norm_num

/-! ## ArcFace margin head (`arc_gempool.py`, class `ArcMarginProduct`) -/

/-- `t.norm(2)` of one row: the Euclidean norm used by `F.normalize`. -/
noncomputable def l2norm {n : ℕ} (v : Fin n → ℝ) : ℝ := Real.sqrt (∑ k, v k ^ 2)

/-- `F.normalize(·, p=2, dim=1, eps=1e-12)` applied to one row: torch divides
by the norm clamped from below by `eps = 1e-12`. -/
noncomputable def Fnormalize {n : ℕ} (v : Fin n → ℝ) : Fin n → ℝ :=
  fun k => v k / max (l2norm v) (1e-12)

/-- `F.linear(F.normalize(input), F.normalize(self.weight))`: since
`F.linear(x, W) = x @ W.T`, entry `(i, j)` is the dot product of the
normalized input row `i` with the normalized weight row `j`. -/
noncomputable def cosineMatrix {B C n : ℕ} (input : Fin B → Fin n → ℝ)
    (Wt : Fin C → Fin n → ℝ) : Fin B → Fin C → ℝ :=
  fun i j => ∑ k, Fnormalize (input i) k * Fnormalize (Wt j) k

/-- `sine = torch.sqrt(1.0 - torch.pow(cosine, 2))` for one entry. -/
noncomputable def arcSine (c : ℝ) : ℝ := Real.sqrt (1 - c ^ 2)

/-- Per-entry margin selection of `ArcMarginProduct.forward`:
`phi = cosine * self.cos_m - sine * self.sin_m`, then the `torch.where`
guard — `where(cosine > 0, phi, cosine)` under easy margin, and
`where(cosine > self.th, phi, cosine - self.mm)` otherwise. -/
noncomputable def marginLogit (easy : Bool) (cm sm th mm c : ℝ) : ℝ :=
  if easy then (if 0 < c then c * cm - arcSine c * sm else c)
  else (if th < c then c * cm - arcSine c * sm else c - mm)

/-- State of the `ArcMarginProduct` module: the fields stored by
`ArcMarginProduct.__init__`. -/
structure ArcMarginProduct where
  in_features : ℕ
  out_features : ℕ
  weight : Fin out_features → Fin in_features → ℝ
  s : ℝ
  m : ℝ
  easy_margin : Bool
  ls_eps : ℝ
  cos_m : ℝ
  sin_m : ℝ
  th : ℝ
  mm : ℝ

/-- `ArcMarginProduct.__init__(in_features, out_features, s, m, easy_margin,
ls_eps)`: stores the arguments and precomputes `cos_m = cos(m)`,
`sin_m = sin(m)`, `th = cos(π - m)`, `mm = sin(π - m) * m`.  The weight is
the (xavier-initialized, hence arbitrary) parameter matrix with
`out_features` rows of length `in_features`. -/
noncomputable def mkArcMarginProduct (inF outF : ℕ) (Wt : Fin outF → Fin inF → ℝ)
    (s m : ℝ) (easy_margin : Bool) (ls_eps : ℝ) : ArcMarginProduct :=
  ⟨inF, outF, Wt, s, m, easy_margin, ls_eps, Real.cos m, Real.sin m,
    Real.cos (Real.pi - m), Real.sin (Real.pi - m) * m⟩

/-- `ArcMarginProduct.forward(input, label)`.  The method builds only fresh
tensors (the in-place `scatter_` writes a freshly allocated local `one_hot`),
so the module state after the call is returned alongside the output to make
the frame property expressible.  With `ls_eps > 0` the one-hot target is
label-smoothed; the selected value is scaled by `self.s` at the end. -/
noncomputable def ArcMarginProduct.forward (A : ArcMarginProduct) (B : ℕ)
    (input : Fin B → Fin A.in_features → ℝ) (label : Fin B → Fin A.out_features) :
    (Fin B → Fin A.out_features → ℝ) × ArcMarginProduct :=
  let cosine := cosineMatrix input A.weight
  let phi := fun i j => marginLogit A.easy_margin A.cos_m A.sin_m A.th A.mm (cosine i j)
  let one_hot : Fin B → Fin A.out_features → ℝ := fun i j => if j = label i then 1 else 0
  let one_hot2 : Fin B → Fin A.out_features → ℝ :=
    if 0 < A.ls_eps then
      fun i j => (1 - A.ls_eps) * one_hot i j + A.ls_eps / (A.out_features : ℝ)
    else one_hot
  let output := fun i j => (one_hot2 i j * phi i j + (1 - one_hot2 i j) * cosine i j) * A.s
  (output, A)

/-- `CONFIG["num_classes"]`. -/
def CONFIG_num_classes : ℕ := 15587

/-- `CONFIG["embedding_size"]`. -/
def CONFIG_embedding_size : ℕ := 512

/-- `CONFIG["s"]`. -/
noncomputable def CONFIG_s : ℝ := 30.0

/-- `CONFIG["m"]`. -/
noncomputable def CONFIG_m : ℝ := 0.50

/-- `CONFIG["ls_eps"]`. -/
noncomputable def CONFIG_ls_eps : ℝ := 0.0

/-- The head built in `HappyWhaleModel.__init__`:
`ArcMarginProduct(embedding_size, CONFIG["num_classes"], s=CONFIG["s"],
m=CONFIG["m"], easy_margin=CONFIG["ls_eps"], ls_eps=CONFIG["ls_eps"])`.
The `easy_margin` argument receives the float `0.0`, which is falsy in
`if self.easy_margin:`, so the module behaves as with `easy_margin=False`. -/
noncomputable def happyWhaleFc
    (Wt : Fin CONFIG_num_classes → Fin CONFIG_embedding_size → ℝ) : ArcMarginProduct :=
  mkArcMarginProduct CONFIG_embedding_size CONFIG_num_classes Wt
    CONFIG_s CONFIG_m false CONFIG_ls_eps

/-- C1: with `easy_margin=False` and `ls_eps=0`, `ArcMarginProduct.forward`
returns, writing `c` for the cosine of input row `i` against weight row `j`:
for the true class (`j = label i`) the value
`s * (c * cos(m) - sqrt(1 - c^2) * sin(m))` whenever `c > cos(π - m)` and
`s * (c - sin(π - m) * m)` whenever `c ≤ cos(π - m)`; for every other class
the plain scaled cosine `s * c`. -/
theorem C1_arc_forward_values (inF outF B : ℕ) (Wt : Fin outF → Fin inF → ℝ)
    (s m : ℝ) (input : Fin B → Fin inF → ℝ) (label : Fin B → Fin outF)
    (i : Fin B) (j : Fin outF) :
    ((mkArcMarginProduct inF outF Wt s m false 0).forward B input label).1 i j =
      if j = label i then
        (if Real.cos (Real.pi - m) < cosineMatrix input Wt i j then
          s * (cosineMatrix input Wt i j * Real.cos m -
            Real.sqrt (1 - cosineMatrix input Wt i j ^ 2) * Real.sin m)
        else
          s * (cosineMatrix input Wt i j - Real.sin (Real.pi - m) * m))
      else s * cosineMatrix input Wt i j := by
  by_cases hj : j = label i
  · subst hj
    simp only [ArcMarginProduct.forward, mkArcMarginProduct, marginLogit, arcSine,
      lt_self_iff_false, if_false, Bool.false_eq_true, eq_self_iff_true, if_true]
    split_ifs with hth
    · ring
    · ring
  · simp only [ArcMarginProduct.forward, mkArcMarginProduct, marginLogit, arcSine,
      lt_self_iff_false, if_false, Bool.false_eq_true, if_neg hj]
    ring

/-- C8: `ArcMarginProduct.forward` does not mutate the module state: the
weight parameter and the precomputed constants `s`, `m`, `cos_m`, `sin_m`,
`th`, `mm` are unchanged by every call (the weight normalization is applied
functionally to a fresh tensor). -/
theorem C8_forward_frame (A : ArcMarginProduct) (B : ℕ)
    (input : Fin B → Fin A.in_features → ℝ) (label : Fin B → Fin A.out_features) :
    (A.forward B input label).2 = A ∧
    (A.forward B input label).2.weight = A.weight ∧
    (A.forward B input label).2.s = A.s ∧
    (A.forward B input label).2.m = A.m ∧
    (A.forward B input label).2.cos_m = A.cos_m ∧
    (A.forward B input label).2.sin_m = A.sin_m ∧
    (A.forward B input label).2.th = A.th ∧
    (A.forward B input label).2.mm = A.mm :=
  ⟨rfl, rfl, rfl, rfl, rfl, rfl, rfl, rfl⟩

/-- C5: the class weight matrix has one row per class — for the head built in
`HappyWhaleModel`, `out_features = num_classes = 15587` rows of length
`in_features = embedding_size = 512` — and the cosine matrix entry `(i, j)`
is the dot product of the L2-normalized input embedding with the
L2-normalized weight row, provided both norms are at least torch's
normalization floor `1e-12`. -/
theorem C5_cosine_is_normalized_dot (inF outF B : ℕ) (Wt : Fin outF → Fin inF → ℝ)
    (input : Fin B → Fin inF → ℝ) (i : Fin B) (j : Fin outF)
    (Wt2 : Fin CONFIG_num_classes → Fin CONFIG_embedding_size → ℝ)
    (hx : (1e-12 : ℝ) ≤ l2norm (input i)) (hw : (1e-12 : ℝ) ≤ l2norm (Wt j)) :
    cosineMatrix input Wt i j =
      (∑ k, (input i k / l2norm (input i)) * (Wt j k / l2norm (Wt j))) ∧
    (happyWhaleFc Wt2).out_features = 15587 ∧
    (happyWhaleFc Wt2).in_features = 512 := by
  refine ⟨?_, rfl, rfl⟩
  unfold cosineMatrix Fnormalize
  simp only [max_eq_left hx, max_eq_left hw]

/-- Witness for C5 at the all-ones batch and weight of size `1 × 1`: both
norms are `1 ≥ 1e-12` and the theorem applies. -/
theorem C5_cosine_is_normalized_dot_witness :
    ((1e-12 : ℝ) ≤ l2norm (fun _ : Fin 1 => (1 : ℝ))) ∧
    (cosineMatrix (fun _ : Fin 1 => fun _ : Fin 1 => (1 : ℝ))
        (fun _ : Fin 1 => fun _ : Fin 1 => (1 : ℝ)) 0 0 =
      (∑ _k : Fin 1, ((1 : ℝ) / l2norm (fun _ : Fin 1 => (1 : ℝ))) *
        ((1 : ℝ) / l2norm (fun _ : Fin 1 => (1 : ℝ)))) ∧
    (happyWhaleFc (fun _ _ => 0)).out_features = 15587 ∧
    (happyWhaleFc (fun _ _ => 0)).in_features = 512) := by
  have hn : l2norm (fun _ : Fin 1 => (1 : ℝ)) = 1 := by
    unfold l2norm
    simp
  have h : (1e-12 : ℝ) ≤ l2norm (fun _ : Fin 1 => (1 : ℝ)) := by
    rw [hn]
    norm_num
  exact ⟨h, C5_cosine_is_normalized_dot 1 1 1 (fun _ _ => 1) (fun _ _ => 1) 0 0
    (fun _ _ => 0) h h⟩

/-- On `[-1, 1]` the code's phi formula
`cosine * cos(m) - sqrt(1 - cosine^2) * sin(m)` is `cos(arccos cosine + m)`. -/
theorem arc_phi_eq_cos_add (m c : ℝ) (h1 : -1 ≤ c) (h2 : c ≤ 1) :
    c * Real.cos m - arcSine c * Real.sin m = Real.cos (Real.arccos c + m) := by
  rw [Real.cos_add, Real.cos_arccos h1 h2]
  unfold arcSine
  rw [Real.sin_arccos]

/-- C2 (amended): for all valid `cosθ` in `[-1, 1]` with `θ < π - m` (and
`s ≥ 0`, `m ≥ 0`), the margin head's output for the true class is LESS than
or equal to the plain cosine scaled by `s`: the additive angular margin
penalizes the true-class logit, it never raises it. -/
theorem C2_true_class_logit_le (s m c : ℝ) (hs : 0 ≤ s) (hm : 0 ≤ m)
    (h1 : -1 ≤ c) (h2 : c ≤ 1) (hθ : Real.arccos c < Real.pi - m) :
    s * marginLogit false (Real.cos m) (Real.sin m) (Real.cos (Real.pi - m))
      (Real.sin (Real.pi - m) * m) c ≤ s * c := by
  have hbranch : Real.cos (Real.pi - m) < c := by
    have hlt := Real.cos_lt_cos_of_nonneg_of_le_pi (Real.arccos_nonneg c)
      (by linarith) hθ
    rwa [Real.cos_arccos h1 h2] at hlt
  have hml : marginLogit false (Real.cos m) (Real.sin m) (Real.cos (Real.pi - m))
      (Real.sin (Real.pi - m) * m) c = c * Real.cos m - arcSine c * Real.sin m := by
    unfold marginLogit
    simp only [Bool.false_eq_true, if_false, if_pos hbranch]
  rw [hml, arc_phi_eq_cos_add m c h1 h2]
  have hcos : Real.cos (Real.arccos c + m) ≤ Real.cos (Real.arccos c) :=
    Real.cos_le_cos_of_nonneg_of_le_pi (Real.arccos_nonneg c) (by linarith)
      (by linarith)
  rw [Real.cos_arccos h1 h2] at hcos
  exact mul_le_mul_of_nonneg_left hcos hs

/-- Witness for C2 (amended) at `s = 1`, `m = 0`, `cosθ = 0`:
`arccos 0 = π/2 < π - 0`, and the margined logit is at most the plain one. -/
theorem C2_true_class_logit_le_witness :
    ((0 : ℝ) ≤ 1 ∧ (0 : ℝ) ≤ 0 ∧ (-1 : ℝ) ≤ 0 ∧ (0 : ℝ) ≤ 1 ∧
      Real.arccos 0 < Real.pi - 0) ∧
    1 * marginLogit false (Real.cos 0) (Real.sin 0) (Real.cos (Real.pi - 0))
      (Real.sin (Real.pi - 0) * 0) 0 ≤ 1 * 0 := by
  have h5 : Real.arccos 0 < Real.pi - 0 := by
    rw [Real.arccos_zero]
    have hpi := Real.pi_pos
    linarith
  exact ⟨⟨by norm_num, le_refl 0, by norm_num, by norm_num, h5⟩,
    C2_true_class_logit_le 1 0 0 (by norm_num) (le_refl 0) (by norm_num)
      (by norm_num) h5⟩

/-- C2 counterexample: at `cosθ = 0` with the config margin `m = 0.5` and
scale `s = 30`, the angle `θ = arccos 0 = π/2` satisfies `θ < π - m`, yet the
true-class output `30 * (-sin 0.5)` is strictly below `30 * 0`; so the
claimed inequality `output ≥ s * cosθ` fails. -/
theorem C2_counterexample :
    Real.arccos 0 < Real.pi - (0.5 : ℝ) ∧
    ¬ ((30 : ℝ) * 0 ≤ 30 * marginLogit false (Real.cos 0.5) (Real.sin 0.5)
      (Real.cos (Real.pi - 0.5)) (Real.sin (Real.pi - 0.5) * 0.5) 0) := by
  have hpi : (3 : ℝ) < Real.pi := Real.pi_gt_three
  constructor
  · rw [Real.arccos_zero]
    linarith
  · have hth : Real.cos (Real.pi - 0.5) < 0 := by
      rw [Real.cos_pi_sub]
      have hc : 0 < Real.cos 0.5 :=
        Real.cos_pos_of_mem_Ioo ⟨by linarith, by linarith⟩
      linarith
    have hml : marginLogit false (Real.cos 0.5) (Real.sin 0.5)
        (Real.cos (Real.pi - 0.5)) (Real.sin (Real.pi - 0.5) * 0.5) 0 =
        -Real.sin 0.5 := by
      unfold marginLogit arcSine
      simp only [Bool.false_eq_true, if_false, if_pos hth]
      norm_num
    have hsin : 0 < Real.sin 0.5 :=
      Real.sin_pos_of_pos_of_lt_pi (by norm_num) (by linarith)
    rw [hml]
    intro hcon
    nlinarith

/-- C10: whenever a cosine entry `c` lies in `[-1, 1]`, the argument
`1 - c^2` of the square root in `sine = torch.sqrt(1.0 - cosine**2)` is
non-negative, so the square root is the genuine (NaN-free) root:
`sine^2 = 1 - c^2` and `sine ≥ 0`. -/
theorem C10_sine_welldefined (c : ℝ) (h1 : -1 ≤ c) (h2 : c ≤ 1) :
    0 ≤ 1 - c ^ 2 ∧ arcSine c ^ 2 = 1 - c ^ 2 ∧ 0 ≤ arcSine c := by
  have h : 0 ≤ 1 - c ^ 2 := by nlinarith
  exact ⟨h, Real.sq_sqrt h, Real.sqrt_nonneg _⟩

/-- Witness for C10 at `c = 1/2`. -/
theorem C10_sine_welldefined_witness :
    ((-1 : ℝ) ≤ 1 / 2 ∧ (1 / 2 : ℝ) ≤ 1) ∧
    (0 ≤ 1 - (1 / 2 : ℝ) ^ 2 ∧ arcSine (1 / 2) ^ 2 = 1 - (1 / 2 : ℝ) ^ 2 ∧
      0 ≤ arcSine (1 / 2)) :=
  ⟨⟨by norm_num, by norm_num⟩,
    C10_sine_welldefined (1 / 2) (by norm_num) (by norm_num)⟩

/-! ## Checkpointing in `run_training` (`arc_gempool.py`) -/

/-- The checkpointing state of `run_training`: `best_epoch_loss` (a real, or
`⊤` for the initial `np.inf`), `best_model_wts`, and the list of epochs whose
iteration called `torch.save`. -/
structure RunState (W : Type) where
  best_epoch_loss : WithTop ℝ
  best_model_wts : W
  saves : List ℕ

/-- One iteration of `run_training`'s epoch loop, restricted to checkpointing:
`wtsF e` is `model.state_dict()` after the training of epoch `e` (the gradient
updates are abstract) and `val` is `val_epoch_loss`.  The body runs
`if val_epoch_loss <= best_epoch_loss: best_epoch_loss = val_epoch_loss;
best_model_wts = copy.deepcopy(model.state_dict()); torch.save(...)`. -/
noncomputable def runEpoch {W : Type} (wtsF : ℕ → W) (e : ℕ) (val : ℝ)
    (st : RunState W) : RunState W :=
  if (val : WithTop ℝ) ≤ st.best_epoch_loss then
    ⟨(val : WithTop ℝ), wtsF e, st.saves ++ [e]⟩
  else st

/-- The state after the first `n` epochs of `run_training`: it starts with
`best_epoch_loss = np.inf` and `best_model_wts = copy.deepcopy(model.state_dict())`
(the initial weights `w0`); `vals e` is epoch `e`'s validation loss. -/
noncomputable def runUpTo {W : Type} (wtsF : ℕ → W) (vals : ℕ → ℝ) (w0 : W) :
    ℕ → RunState W
  | 0 => ⟨⊤, w0, []⟩
  | n + 1 => runEpoch wtsF n (vals n) (runUpTo wtsF vals w0 n)

/-- What `run_training` returns: it executes
`model.load_state_dict(best_model_wts)` and returns the model, so the
returned parameters are `best_model_wts` of the final state. -/
noncomputable def run_training_result {W : Type} (wtsF : ℕ → W) (vals : ℕ → ℝ)
    (w0 : W) (n : ℕ) : W :=
  (runUpTo wtsF vals w0 n).best_model_wts

/-- Minimum of the validation losses of the epochs before `n`; `⊤` (`np.inf`)
when there is none. -/
noncomputable def minValSoFar (vals : ℕ → ℝ) (n : ℕ) : WithTop ℝ :=
  (Finset.range n).inf fun e => ((vals e : ℝ) : WithTop ℝ)

theorem runUpTo_succ {W : Type} (wtsF : ℕ → W) (vals : ℕ → ℝ) (w0 : W) (n : ℕ) :
    runUpTo wtsF vals w0 (n + 1) = runEpoch wtsF n (vals n) (runUpTo wtsF vals w0 n) :=
  rfl

theorem runUpTo_zero {W : Type} (wtsF : ℕ → W) (vals : ℕ → ℝ) (w0 : W) :
    runUpTo wtsF vals w0 0 = ⟨⊤, w0, []⟩ :=
  rfl

theorem minValSoFar_zero (vals : ℕ → ℝ) : minValSoFar vals 0 = ⊤ := by
  unfold minValSoFar
  rw [Finset.range_zero, Finset.inf_empty]

theorem minValSoFar_succ (vals : ℕ → ℝ) (n : ℕ) :
    minValSoFar vals (n + 1) = ((vals n : ℝ) : WithTop ℝ) ⊓ minValSoFar vals n := by
  unfold minValSoFar
  rw [Finset.range_succ, Finset.inf_insert]

theorem minValSoFar_anti (vals : ℕ → ℝ) {a b : ℕ} (hab : a ≤ b) :
    minValSoFar vals b ≤ minValSoFar vals a :=
  Finset.inf_mono (Finset.range_subset.mpr hab)

/-- Invariant: `best_epoch_loss` after `n` epochs is the minimum validation
loss observed so far. -/
theorem runUpTo_best {W : Type} (wtsF : ℕ → W) (vals : ℕ → ℝ) (w0 : W) (n : ℕ) :
    (runUpTo wtsF vals w0 n).best_epoch_loss = minValSoFar vals n := by
  induction n with
  | zero => rw [minValSoFar_zero]; rfl
  | succ n ih =>
    rw [runUpTo_succ, minValSoFar_succ]
    unfold runEpoch
    split_ifs with h
    · rw [ih] at h
      exact (inf_eq_left.mpr h).symm
    · rw [ih] at h
      push_neg at h
      rw [ih]
      exact (inf_eq_right.mpr h.le).symm

/-- Invariant: epoch `e` called `torch.save` iff its validation loss was at
most the best (minimum) validation loss seen before it. -/
theorem runUpTo_saves {W : Type} (wtsF : ℕ → W) (vals : ℕ → ℝ) (w0 : W)
    (e : ℕ) (n : ℕ) :
    e ∈ (runUpTo wtsF vals w0 n).saves ↔
      e < n ∧ ((vals e : ℝ) : WithTop ℝ) ≤ minValSoFar vals e := by
  induction n with
  | zero =>
    constructor
    · intro hmem
      exact absurd hmem (List.not_mem_nil e)
    · rintro ⟨hlt, -⟩
      exact absurd hlt (Nat.not_lt_zero e)
  | succ n ih =>
    rw [runUpTo_succ]
    unfold runEpoch
    split_ifs with h
    · constructor
      · intro hmem
        rcases List.mem_append.mp hmem with hmem | hmem
        · rcases ih.mp hmem with ⟨hlt, hc⟩
          exact ⟨Nat.lt_succ_of_lt hlt, hc⟩
        · rw [List.mem_singleton] at hmem
          subst hmem
          rw [runUpTo_best] at h
          exact ⟨Nat.lt_succ_self e, h⟩
      · rintro ⟨hlt, hc⟩
        rcases Nat.lt_succ_iff_lt_or_eq.mp hlt with hlt' | rfl
        · exact List.mem_append.mpr (Or.inl (ih.mpr ⟨hlt', hc⟩))
        · exact List.mem_append.mpr (Or.inr (List.mem_singleton.mpr rfl))
    · rw [ih]
      constructor
      · rintro ⟨hlt, hc⟩
        exact ⟨Nat.lt_succ_of_lt hlt, hc⟩
      · rintro ⟨hlt, hc⟩
        rcases Nat.lt_succ_iff_lt_or_eq.mp hlt with hlt' | rfl
        · exact ⟨hlt', hc⟩
        · rw [runUpTo_best] at h
          exact absurd hc h

/-- Invariant: after at least one epoch, `best_model_wts` is the state dict of
the most recent epoch attaining the minimum validation loss (the `<=` in the
code makes ties update the checkpoint). -/
theorem runUpTo_argmin {W : Type} (wtsF : ℕ → W) (vals : ℕ → ℝ) (w0 : W) :
    ∀ n : ℕ, 1 ≤ n →
      ∃ e, e < n ∧ (runUpTo wtsF vals w0 n).best_model_wts = wtsF e ∧
        ((vals e : ℝ) : WithTop ℝ) = minValSoFar vals n ∧
        ∀ e', e < e' → e' < n → ((vals e' : ℝ) : WithTop ℝ) ≠ minValSoFar vals n := by
  intro n
  induction n with
  | zero => intro h; exact absurd h (by norm_num)
  | succ n ih =>
    intro _
    rcases Nat.eq_zero_or_pos n with rfl | hn
    · have hstep : runUpTo wtsF vals w0 1 =
          ⟨((vals 0 : ℝ) : WithTop ℝ), wtsF 0, [0]⟩ := by
        rw [runUpTo_succ, runUpTo_zero]
        unfold runEpoch
        rw [if_pos le_top]
        rfl
      have hmin1 : minValSoFar vals 1 = ((vals 0 : ℝ) : WithTop ℝ) := by
        rw [minValSoFar_succ, minValSoFar_zero, inf_top_eq]
      refine ⟨0, Nat.lt_succ_self 0, ?_, hmin1.symm, ?_⟩
      · rw [hstep]
      · intro e' h1 h2
        omega
    · rw [runUpTo_succ]
      unfold runEpoch
      split_ifs with h
      · rw [runUpTo_best] at h
        have hmin : minValSoFar vals (n + 1) = ((vals n : ℝ) : WithTop ℝ) := by
          rw [minValSoFar_succ]
          exact inf_eq_left.mpr h
        refine ⟨n, Nat.lt_succ_self n, rfl, hmin.symm, ?_⟩
        intro e' h1 h2
        omega
      · rw [runUpTo_best] at h
        push_neg at h
        have hmin : minValSoFar vals (n + 1) = minValSoFar vals n := by
          rw [minValSoFar_succ]
          exact inf_eq_right.mpr h.le
        rcases ih hn with ⟨e, he, hwts, hval, hlast⟩
        refine ⟨e, Nat.lt_succ_of_lt he, hwts, by rw [hmin]; exact hval, ?_⟩
        intro e' h1 h2
        rw [hmin]
        rcases Nat.lt_succ_iff_lt_or_eq.mp h2 with h' | rfl
        · exact hlast e' h1 h'
        · exact (ne_of_lt h).symm

/-! ## The ventilator script's save (`lstm_train.py`) -/

/-- Externally visible events of `lstm_train.py`'s straight-line schedule:
the end of a training epoch, or a write of the serialized weights file. -/
inductive VentEvent (V : Type) where
  | epochEnd : ℕ → VentEvent V
  | saveWeights : V → VentEvent V

/-- Whether an event is a weights-file write. -/
def isSave {V : Type} : VentEvent V → Bool
  | VentEvent.saveWeights _ => true
  | VentEvent.epochEnd _ => false

/-- The LSTM parameters after `n` epochs of the training loop; one epoch of
gradient updates is the abstract `step`, starting from the initial
parameters `w0`. -/
def ventStates {V : Type} (step : V → V) (w0 : V) : ℕ → V
  | 0 => w0
  | n + 1 => step (ventStates step w0 n)

/-- The ventilator script's event trace: the `for epoch in range(num_epochs)`
loop contains no `torch.save`, and a single
`torch.save(lstm1.state_dict(), PATH + 'model_LSTM.pt')` follows the loop. -/
def ventTrace {V : Type} (step : V → V) (w0 : V) (n : ℕ) : List (VentEvent V) :=
  ((List.range n).map VentEvent.epochEnd) ++
    [VentEvent.saveWeights (ventStates step w0 n)]

/-- The weights the ventilator script serializes: the state after the final
epoch. -/
def ventSavedState {V : Type} (step : V → V) (w0 : V) (n : ℕ) : V :=
  ventStates step w0 n

/-- C6: a weights file is written only on validation-loss improvement or at
the end of training.  In the ArcFace `run_training`, epoch `e` saves a
checkpoint iff its validation loss is at most the best (minimum) validation
loss seen before it; in the ventilator script exactly one save event occurs,
and it is the last event of the trace, after the final epoch. -/
theorem C6_save_condition {W V : Type} (wtsF : ℕ → W) (vals : ℕ → ℝ) (w0 : W)
    (n e : ℕ) (he : e < n) (step : V → V) (v0 : V) (nv : ℕ) :
    (e ∈ (runUpTo wtsF vals w0 n).saves ↔
      ((vals e : ℝ) : WithTop ℝ) ≤ minValSoFar vals e) ∧
    (ventTrace step v0 nv).countP isSave = 1 ∧
    (ventTrace step v0 nv).getLast? =
      some (VentEvent.saveWeights (ventStates step v0 nv)) := by
  refine ⟨?_, ?_, ?_⟩
  · rw [runUpTo_saves]
    exact and_iff_right he
  · unfold ventTrace
    rw [List.countP_append, List.countP_map]
    have h0 : List.countP (isSave ∘ (VentEvent.epochEnd : ℕ → VentEvent V))
        (List.range nv) = 0 :=
      List.countP_eq_zero.mpr (fun a _ => by simp [Function.comp, isSave])
    rw [h0]
    simp [List.countP_cons, isSave]
  · unfold ventTrace
    exact List.getLast?_concat _

/-- Witness for C6 with one ArcFace epoch of loss `1` and one ventilator
epoch over state type `ℕ`. -/
theorem C6_save_condition_witness :
    0 < 1 ∧
    ((0 ∈ (runUpTo (fun j : ℕ => j) (fun _ => (1 : ℝ)) 0 1).saves ↔
      (((1 : ℝ) : WithTop ℝ)) ≤ minValSoFar (fun _ => (1 : ℝ)) 0) ∧
    (ventTrace (fun v : ℕ => v) 0 1).countP isSave = 1 ∧
    (ventTrace (fun v : ℕ => v) 0 1).getLast? =
      some (VentEvent.saveWeights (ventStates (fun v : ℕ => v) 0 1))) :=
  ⟨by norm_num,
    C6_save_condition (fun j : ℕ => j) (fun _ => (1 : ℝ)) 0 1 0 (by norm_num)
      (fun v : ℕ => v) 0 1⟩

/-- C7 (amended): the ArcFace `run_training` returns the parameters of the
most recent epoch that attained the minimum validation loss over all epochs
(it loads `best_model_wts` into the model before returning); the ventilator
script instead saves the state after the final epoch, which need not be a
loss-minimizing one. -/
theorem C7_checkpoint_best {W V : Type} (wtsF : ℕ → W) (vals : ℕ → ℝ) (w0 : W)
    (n : ℕ) (hn : 1 ≤ n) (step : V → V) (v0 : V) (nv : ℕ) :
    (∃ e, e < n ∧ run_training_result wtsF vals w0 n = wtsF e ∧
      ((vals e : ℝ) : WithTop ℝ) = minValSoFar vals n ∧
      ∀ e', e < e' → e' < n →
        ((vals e' : ℝ) : WithTop ℝ) ≠ minValSoFar vals n) ∧
    ventSavedState step v0 nv = ventStates step v0 nv :=
  ⟨runUpTo_argmin wtsF vals w0 n hn, rfl⟩

/-- Witness for C7 with one ArcFace epoch of loss `1` and a zero-epoch
ventilator run over state type `ℕ`. -/
theorem C7_checkpoint_best_witness :
    1 ≤ 1 ∧
    ((∃ e, e < 1 ∧ run_training_result (fun j : ℕ => j) (fun _ => (1 : ℝ)) 0 1 = e ∧
      (((1 : ℝ) : WithTop ℝ)) = minValSoFar (fun _ => (1 : ℝ)) 1 ∧
      ∀ e', e < e' → e' < 1 →
        (((1 : ℝ) : WithTop ℝ)) ≠ minValSoFar (fun _ => (1 : ℝ)) 1) ∧
    ventSavedState (fun v : ℕ => v) 0 0 = ventStates (fun v : ℕ => v) 0 0) :=
  ⟨le_refl 1,
    C7_checkpoint_best (fun j : ℕ => j) (fun _ => (1 : ℝ)) 0 1 (le_refl 1)
      (fun v : ℕ => v) 0 0⟩

/-- C7 counterexample: take the ventilator model with state type `ℕ`,
initial state `0`, `step = Nat.succ` and 2 epochs, and read a state's value
as its validation loss.  The saved state is `ventSavedState Nat.succ 0 2 = 2`,
but the state after epoch 1 has the strictly smaller loss `1`; so the saved
state is not the best (loss-minimizing) state over the epochs, refuting the
ventilator half of the claim. -/
theorem C7_counterexample :
    ¬ (∀ e, 1 ≤ e → e ≤ 2 → ventSavedState Nat.succ 0 2 ≤ ventStates Nat.succ 0 e) := by
  intro hbest
  have h1 := hbest 1 (le_refl 1) (by norm_num)
  have hs : ventSavedState Nat.succ 0 2 = 2 := rfl
  have hv : ventStates Nat.succ 0 1 = 1 := rfl
  rw [hs, hv] at h1
  exact absurd h1 (by norm_num)

/-- C9: in `run_training`, `best_epoch_loss` starts at `np.inf` (`⊤`), is
monotonically non-increasing across epochs, after every epoch equals the
minimum of the validation losses observed so far (so the first epoch always
checkpoints), and `best_model_wts` holds the state dict of the most recent
epoch attaining that minimum. -/
theorem C9_best_loss_invariant {W : Type} (wtsF : ℕ → W) (vals : ℕ → ℝ) (w0 : W)
    (k : ℕ) (hk : 1 ≤ k) :
    (runUpTo wtsF vals w0 k).best_epoch_loss ≤
      (runUpTo wtsF vals w0 (k - 1)).best_epoch_loss ∧
    (runUpTo wtsF vals w0 k).best_epoch_loss = minValSoFar vals k ∧
    (runUpTo wtsF vals w0 0).best_epoch_loss = ⊤ ∧
    0 ∈ (runUpTo wtsF vals w0 1).saves ∧
    (∃ e, e < k ∧ (runUpTo wtsF vals w0 k).best_model_wts = wtsF e ∧
      ((vals e : ℝ) : WithTop ℝ) = minValSoFar vals k ∧
      ∀ e', e < e' → e' < k →
        ((vals e' : ℝ) : WithTop ℝ) ≠ minValSoFar vals k) := by
  refine ⟨?_, runUpTo_best wtsF vals w0 k, rfl, ?_,
    runUpTo_argmin wtsF vals w0 k hk⟩
  · rw [runUpTo_best, runUpTo_best]
    exact minValSoFar_anti vals (Nat.sub_le k 1)
  · rw [runUpTo_saves]
    refine ⟨by norm_num, ?_⟩
    rw [minValSoFar_zero]
    exact le_top

/-- Witness for C9 after one epoch of loss `1`, with weight type `ℕ`. -/
theorem C9_best_loss_invariant_witness :
    1 ≤ 1 ∧
    ((runUpTo (fun j : ℕ => j) (fun _ => (1 : ℝ)) 0 1).best_epoch_loss ≤
      (runUpTo (fun j : ℕ => j) (fun _ => (1 : ℝ)) 0 (1 - 1)).best_epoch_loss ∧
    (runUpTo (fun j : ℕ => j) (fun _ => (1 : ℝ)) 0 1).best_epoch_loss =
      minValSoFar (fun _ => (1 : ℝ)) 1 ∧
    (runUpTo (fun j : ℕ => j) (fun _ => (1 : ℝ)) 0 0).best_epoch_loss = ⊤ ∧
    0 ∈ (runUpTo (fun j : ℕ => j) (fun _ => (1 : ℝ)) 0 1).saves ∧
    (∃ e, e < 1 ∧
      (runUpTo (fun j : ℕ => j) (fun _ => (1 : ℝ)) 0 1).best_model_wts = e ∧
      (((1 : ℝ) : WithTop ℝ)) = minValSoFar (fun _ => (1 : ℝ)) 1 ∧
      ∀ e', e < e' → e' < 1 →
        (((1 : ℝ) : WithTop ℝ)) ≠ minValSoFar (fun _ => (1 : ℝ)) 1)) :=
  ⟨le_refl 1,
    C9_best_loss_invariant (fun j : ℕ => j) (fun _ => (1 : ℝ)) 0 1 (le_refl 1)⟩
